import Mathlib

/-!
Verification of the Editable Element Tree & Editor State Management core of
`react-three-editor` (`src/packages/editor/src/editable/Editor.tsx`).

The editor store is embedded shallowly.  JavaScript objects are mutable and
aliased, and `Editor.appendElement` / `Editor.removeElement` mutate the
element and parent objects in place (`Object.assign`, property assignment,
`delete`), so the embedding uses an explicit heap: element objects live at
numeric addresses, and the zustand store's `elements` record is an
association list from element id to address.  Pure record replacement
(`{...el.elements, [k]: v}`) is modelled as functional update of the
association list, while property writes on objects are heap writes visible
through every alias.
-/

namespace ReactThreeEditor

/-- Association-list lookup, first binding wins (JavaScript records hold at
most one binding per key, which all our updates preserve). -/
def lookupA {α : Type} : List (String × α) → String → Option α
  | [], _ => none
  | kv :: rest, k => if kv.1 = k then some kv.2 else lookupA rest k

/-- Remove the binding for `k` (models JavaScript `delete obj[k]`). -/
def eraseA {α : Type} (l : List (String × α)) (k : String) : List (String × α) :=
  l.filter (fun kv => kv.1 ≠ k)

/-- Bind `k` to `v`, replacing any previous binding (models
`{...obj, [k]: v}` as a functional record update). -/
def insertA {α : Type} (l : List (String × α)) (k : String) (v : α) :
    List (String × α) :=
  (k, v) :: eraseA l k

/-- Update the value stored at an existing key, leaving the record's key set
unchanged (models `obj[k].value = v` on a leva data entry). -/
def updateA {α : Type} (l : List (String × α)) (k : String) (v : α) :
    List (String × α) :=
  l.map (fun kv => if kv.1 = k then (k, v) else kv)

/-- JavaScript truthiness of a `string | null` value: `null` and the empty
string are falsy. -/
def jsTruthyS : Option String → Bool
  | none => false
  | some s => s ≠ ""

/-- JavaScript string conversion of a possibly-`undefined` string (string
concatenation renders `undefined` as `"undefined"`). -/
def jsStr : Option String → String
  | none => "undefined"
  | some s => s

/--
One `EditableElement` object, restricted to the fields the Editor operations
touch.  `bare = true` marks an object created by
`Object.assign({}, { childIds })` in `appendElement` (a plain object whose
only own property is `childIds`, not a full `EditableElement`); `Object.assign`
from such an object copies only `childIds`.
-/
structure Elem where
  id : String
  parentId : Option String
  childIds : List String
  index : String
  deleted : Bool
  key : Option String
  bare : Bool
deriving Repr, DecidableEq

/-- `Object.assign(target, src)` on our tracked fields: a full
`EditableElement` source overwrites every field; a bare `{ childIds }`
object contributes only its `childIds`. -/
def objAssign (target src : Elem) : Elem :=
  if src.bare then { target with childIds := src.childIds } else src

/-- The editor store: the object heap, the `elements` record (id to object
address), the selection fields and the allocation bound. -/
structure World where
  heap : Nat → Elem
  elements : List (String × Nat)
  selectedId : Option String
  selectedKey : Option String
  nextAddr : Nat

def readH (w : World) (a : Nat) : Elem := w.heap a

def writeH (w : World) (a : Nat) (e : Elem) : World :=
  { w with heap := fun n => if n = a then e else w.heap n }

/-- Allocate a fresh object; returns the new world (the address is
`w.nextAddr`). -/
def alloc (w : World) (e : Elem) : World :=
  { w with heap := fun n => if n = w.nextAddr then e else w.heap n,
           nextAddr := w.nextAddr + 1 }

/-- The contents of unallocated heap cells. -/
def blankElem : Elem :=
  { id := "", parentId := none, childIds := [], index := "", deleted := false,
    key := none, bare := false }

/-- Modelled from the spec: construction of an `EditableElement` instance
(the `EditableElement` class is not under `src/`): `create(id, ...)` is pure
construction with the given stable id, no parent link (`parentId` argument is
`null` at both construction sites), no children, and clear lifecycle flags. -/
def newEditableElement (id : String) : Elem :=
  { id := id, parentId := none, childIds := [], index := "", deleted := false,
    key := none, bare := false }

/-- The root element created by `createEditorStore`
(`new EditableElement("root", {}, "editor", null)`), with `index` set to `""`
by the `Editor` constructor. -/
def rootElem : Elem := newEditableElement "root"

/-- The store produced by `createEditorStore` plus the `Editor` constructor:
`selectedId = null`, `selectedKey = null`,
`elements = { root: new EditableElement("root", ..., null) }`. -/
def initialWorld : World :=
  { heap := fun n => if n = 0 then rootElem else blankElem,
    elements := [("root", 0)],
    selectedId := none,
    selectedKey := none,
    nextAddr := 1 }

/-- `Editor.createElement`: allocates a fresh element object via the element
constructor (field initialisation modelled from the spec, see
`newEditableElement`). -/
def createElementOp (w : World) (id : String) : World :=
  alloc w (newEditableElement id)

/--
`Editor.appendElement(element, parentId)`, translated statement by statement.
`a` is the address of the `element` argument.

```
if (parentId) {
  element.parentId = parentId
  this?.store?.setState((el) => {
    let parent = Object.assign(el.elements[parentId] ?? {}, {
      childIds: [...(el.elements[parentId]?.childIds ?? []), element.id]
    })
    let newLement = Object.assign(element, el.elements[element.id])
    newLement.index = `${parent.childIds.length - 1}`
    return { elements: { ...el.elements, [newLement.id]: newLement, [parentId]: parent } }
  })
} else {
  this?.store?.setState((el) => ({
    elements: { ...el.elements, [element.id]: Object.assign(element, el.elements[element.id]) }
  }))
}
```
-/
def appendElement (w : World) (a : Nat) (parentId : Option String) : World :=
  if jsTruthyS parentId then
    let p := jsStr parentId
    let w1 := writeH w a { readH w a with parentId := parentId }
    let el := w1.elements
    -- `let parent = Object.assign(el.elements[parentId] ?? {}, { childIds: [..., element.id] })`
    let step2 :=
      match lookupA el p with
      | some pa =>
        ((writeH w1 pa
            { readH w1 pa with
              childIds := (readH w1 pa).childIds ++ [(readH w1 a).id] }), pa)
      | none =>
        ((alloc w1
            { blankElem with bare := true, childIds := [(readH w1 a).id] }),
          w1.nextAddr)
    let w2 := step2.1
    let parentAddr := step2.2
    -- `let newLement = Object.assign(element, el.elements[element.id])`
    let w3 :=
      match lookupA el ((readH w2 a).id) with
      | some ea => writeH w2 a (objAssign (readH w2 a) (readH w2 ea))
      | none => w2
    -- `newLement.index = `${parent.childIds.length - 1}``
    let w4 := writeH w3 a
      { readH w3 a with
        index := toString ((readH w3 parentAddr).childIds.length - 1) }
    { w4 with
      elements := insertA (insertA el ((readH w4 a).id) a) p parentAddr }
  else
    let el := w.elements
    let k := (readH w a).id
    let w2 :=
      match lookupA el k with
      | some ea => writeH w a (objAssign (readH w a) (readH w ea))
      | none => w
    { w2 with elements := insertA el k a }

/--
`Editor.removeElement(element, parentId)`, translated statement by statement.
`a` is the address of the `element` argument.

```
if (parentId) {
  element.parentId = null
  this?.store?.setState((el) => {
    let e = { ...el.elements }
    if (e[parentId]) {
      e[parentId].childIds = e[parentId]?.childIds.filter((c) => c !== element.id)
    }
    delete e[element.id]
    return { elements: e }
  })
} else {
  this?.store?.setState((el) => {
    let e = { ...el }
    delete e.elements[element.id]
    return e
  })
}
```
-/
def removeElement (w : World) (a : Nat) (parentId : Option String) : World :=
  if jsTruthyS parentId then
    let p := jsStr parentId
    let w1 := writeH w a { readH w a with parentId := none }
    let el := w1.elements
    let w2 :=
      match lookupA el p with
      | some pa =>
        writeH w1 pa
          { readH w1 pa with
            childIds :=
              (readH w1 pa).childIds.filter (fun c => c ≠ (readH w1 a).id) }
      | none => w1
    { w2 with elements := eraseA el ((readH w2 a).id) }
  else
    { w with elements := eraseA w.elements ((readH w a).id) }

/-- Modelled from the spec: `EditableElement.delete` (the `EditableElement`
class is not under `src/`): marks `deleted = true` and detaches the element
from all tree links, i.e. removes it from the registry with its current
parent link. -/
def elemDelete (w : World) (a : Nat) : World :=
  let w1 := writeH w a { readH w a with deleted := true }
  removeElement w1 a ((readH w1 a).parentId)

/-- `Editor.clearSelection`: sets both selection fields to `null`. -/
def clearSelectionOp (w : World) : World :=
  { w with selectedId := none, selectedKey := none }

/-- `Editor.deleteElement(element)`: `element.delete()` then
`this.clearSelection()`. -/
def deleteElementOp (w : World) (a : Nat) : World :=
  clearSelectionOp (elemDelete w a)

/-- `Editor.select(element)`: sets `selectedId = element.id`,
`selectedKey = element.key`. -/
def selectOp (w : World) (a : Nat) : World :=
  { w with selectedId := some (readH w a).id, selectedKey := (readH w a).key }

/-- `Editor.selectId(id)`: returns early on a falsy id, otherwise sets only
`selectedId`. -/
def selectIdOp (w : World) (id : String) : World :=
  if id = "" then w else { w with selectedId := some id }

/-- `Editor.selectKey(arg0)`: returns early on a falsy key, otherwise sets
only `selectedKey`. -/
def selectKeyOp (w : World) (k : Option String) : World :=
  if jsTruthyS k then { w with selectedKey := k } else w

/-- `Editor.getElementById(id)`: `this.store.getState().elements[id]`
(`undefined` when absent). -/
def getElementById (w : World) (id : String) : Option Elem :=
  (lookupA w.elements id).map (readH w)

/-! ## Diff persistence (`saveDiff` / `save`) -/

/-- A `Diff` as declared in `Editor.tsx` (`action_type`, `value`, `source`);
the opaque `any` payloads are represented by strings, which the save pipeline
never inspects. -/
structure Diff where
  action_type : String
  value : List (String × String)
  source : String
deriving Repr, DecidableEq

/-- `Editor.saveDiff(diff)`: `await this.client.save(diff)` — one awaited
call to the external client, whose rejection (modelled by `Except.error`)
propagates unchanged. -/
def saveDiff {ε : Type} (client : Diff → Except ε Unit) (d : Diff) :
    Except ε Unit :=
  client d

/-- `Editor.save(diffs)`: `for (let diff of diffs) { await this.saveDiff(diff) }`.
The first component of the result is the sequence of diffs actually passed to
`client.save`, in call order (each call awaited before the next starts); the
second is the overall outcome — the first rejection aborts the loop and
propagates. -/
def save {ε : Type} (client : Diff → Except ε Unit) :
    List Diff → List Diff × Except ε Unit
  | [] => ([], Except.ok ())
  | d :: ds =>
    match saveDiff client d with
    | Except.ok _ =>
      let r := save client ds
      (d :: r.1, r.2)
    | Except.error e => ([d], Except.error e)

/-! ## Settings panel (`setSetting` / `setSettings`)

The settings panel is a leva store (external dependency, specified only by
its data-store contract): `getData()` is a record from dotted-path key to an
entry holding a `value`; `get(path)` reads the `value` at a path;
`setValueAtPath(path, v, ...)` overwrites the `value` at an existing path.
We collapse an entry `{ value, ...metadata }` to its value, so panel data is
an association list from key to value.  A data entry is an object and hence
always truthy, so the JavaScript guard `if (getData()[key])` is key
presence. -/

/-- `Editor.setSetting(arg0, arg1)`:

```
const mode = this.settingsPanel.get("world.mode")
if (this.settingsPanel.getData()[`world.` + mode + " settings." + arg0]) {
  this.settingsPanel.setValueAtPath(`world.` + mode + " settings." + arg0, arg1, true)
}
```
-/
def setSetting (data : List (String × String)) (k v : String) :
    List (String × String) :=
  let mode := jsStr (lookupA data "world.mode")
  let ck := "world." ++ mode ++ " settings." ++ k
  if (lookupA data ck).isSome then updateA data ck v else data

/-- `Editor.setSettings(values)`:

```
this.getPanel(this.settingsPanel).useStore.setState(({ data }) => {
  for (let key in values) {
    data[`world.` + data["world.mode"].value + ` settings.` + key].value = values[key]
  }
  return { data }
})
```

`for...in` visits `values`' keys in insertion order, modelled by a list of
pairs.  Reading `.value` off a missing entry (`data["world.mode"]` or the
composite key) throws a `TypeError`, modelled as `none`. -/
def setSettings (values : List (String × String))
    (data : List (String × String)) : Option (List (String × String)) :=
  match values with
  | [] => some data
  | (k, v) :: rest =>
    match lookupA data "world.mode" with
    | none => none
    | some m =>
      let ck := "world." ++ m ++ " settings." ++ k
      match lookupA data ck with
      | none => none
      | some _ => setSettings rest (updateA data ck v)

/-- Follows the spec's words, for refinement comparison with `setSettings`:
the literal "bulk variant of `setSetting`", i.e. `setSetting` applied to each
entry of the mapping in turn. -/
def bulkSetSetting (values : List (String × String))
    (data : List (String × String)) : List (String × String) :=
  values.foldl (fun d kv => setSetting d kv.1 kv.2) data

/-! ## Operation sequences over the editor store -/

/-- One invocation of a public editor operation.  Element arguments are
passed by object address (`create` allocates and is how addresses come into
being); id and parent-id arguments are passed by value. -/
inductive EOp where
  | create (id : String)
  | append (a : Nat) (p : Option String)
  | remove (a : Nat) (p : Option String)
  | del (a : Nat)
  | sel (a : Nat)
  | selId (id : String)
  | selKey (k : Option String)
  | clearSel
deriving Repr, DecidableEq

def stepOp (w : World) : EOp → World
  | EOp.create id => createElementOp w id
  | EOp.append a p => appendElement w a p
  | EOp.remove a p => removeElement w a p
  | EOp.del a => deleteElementOp w a
  | EOp.sel a => selectOp w a
  | EOp.selId id => selectIdOp w id
  | EOp.selKey k => selectKeyOp w k
  | EOp.clearSel => clearSelectionOp w

def runOps (w : World) (ops : List EOp) : World :=
  ops.foldl stepOp w

/-- Side condition for the amended root invariant: structural operations are
never invoked on the root element itself (and `append` is handed an already
allocated object). -/
def okOp (w : World) : EOp → Bool
  | EOp.append a _ => decide (a < w.nextAddr) && (readH w a).id ≠ "root"
  | EOp.remove a _ => (readH w a).id ≠ "root"
  | EOp.del a => (readH w a).id ≠ "root"
  | _ => true

def okRun (w : World) : List EOp → Bool
  | [] => true
  | op :: ops => okOp w op && okRun (stepOp w op) ops

/-- The root-entry property of the claim: the `elements` record has a `root`
entry whose `parentId` is `null`. -/
def RootOk (w : World) : Prop :=
  ∃ a0, lookupA w.elements "root" = some a0 ∧ (readH w a0).parentId = none

/-- Inductive strengthening of `RootOk`: the root binding points below the
allocation bound at an object named `root` with no parent link, every
binding points below the allocation bound, and no binding other than `root`
reaches an object named `root`. -/
def Inv (w : World) : Prop :=
  ∃ a0, lookupA w.elements "root" = some a0 ∧ a0 < w.nextAddr ∧
    (readH w a0).id = "root" ∧ (readH w a0).parentId = none ∧
    ∀ x ad, lookupA w.elements x = some ad →
      ad < w.nextAddr ∧ ((readH w ad).id = "root" → ad = a0 ∧ x = "root")

/-- External readers hold the previous `elements` record while the heap is
shared: a snapshot is preserved by a mutation exactly when every object the
previous record references is unchanged.  (Follows the spec's words
"the previous mapping value is never mutated in place by external
observers", for comparison with the operations.) -/
def snapshotPreserved (w w2 : World) : Prop :=
  ∀ x ad, lookupA w.elements x = some ad → readH w2 ad = readH w ad

/-- The composite settings key used by `getSettings` / `setSetting`:
`"world." + mode + " settings." + key` with the mode read from
`world.mode`. -/
def compositeKey (data : List (String × String)) (k : String) : String :=
  "world." ++ jsStr (lookupA data "world.mode") ++ " settings." ++ k

/-! ## Basic lemmas about the record and heap operations -/

theorem lookupA_eraseA {α : Type} (l : List (String × α)) (k x : String) :
    lookupA (eraseA l k) x = if x = k then none else lookupA l x := by
  induction l with
  | nil => simp [eraseA, lookupA]
  | cons kv rest ih =>
    by_cases h1 : kv.1 = k
    · rw [show eraseA (kv :: rest) k = eraseA rest k by simp [eraseA, h1]]
      rw [ih]
      by_cases h2 : x = k
      · simp [h2]
      · have h3 : ¬ kv.1 = x := by
          rw [h1]; exact fun hkx => h2 hkx.symm
        simp [lookupA, h2, h3]
    · rw [show eraseA (kv :: rest) k = kv :: eraseA rest k by
        simp [eraseA, h1]]
      by_cases h2 : kv.1 = x
      · have h3 : ¬ x = k := fun hxk => h1 (by rw [h2, hxk])
        simp [lookupA, h2, h3]
      · simp [lookupA, h2, ih]

theorem lookupA_insertA {α : Type} (l : List (String × α)) (k x : String)
    (v : α) :
    lookupA (insertA l k v) x = if x = k then some v else lookupA l x := by
  by_cases h : k = x
  · simp [insertA, lookupA, h]
  · have h2 : ¬ x = k := fun hxk => h hxk.symm
    simp [insertA, lookupA, h, h2, lookupA_eraseA]

theorem lookupA_updateA {α : Type} (l : List (String × α)) (k x : String)
    (v : α) :
    lookupA (updateA l k v) x =
      if x = k then (lookupA l k).map (fun _ => v) else lookupA l x := by
  induction l with
  | nil => by_cases h : x = k <;> simp [updateA, lookupA, h]
  | cons kv rest ih =>
    by_cases h1 : kv.1 = k
    · rw [show updateA (kv :: rest) k v = (k, v) :: updateA rest k v by
        simp [updateA, h1]]
      by_cases h2 : x = k
      · subst h2
        simp [lookupA, h1]
      · have h3 : ¬ k = x := fun hkx => h2 hkx.symm
        have h4 : ¬ kv.1 = x := by
          rw [h1]; exact h3
        simp [lookupA, h2, h3, h4, ih]
    · rw [show updateA (kv :: rest) k v = kv :: updateA rest k v by
        simp [updateA, h1]]
      by_cases h2 : kv.1 = x
      · have h3 : ¬ x = k := fun hxk => h1 (by rw [h2, hxk])
        simp [lookupA, h2, h3]
      · simp [lookupA, h1, h2, ih]

theorem readH_writeH (w : World) (a : Nat) (e : Elem) (b : Nat) :
    readH (writeH w a e) b = if b = a then e else readH w b := rfl

theorem readH_alloc (w : World) (e : Elem) (b : Nat) :
    readH (alloc w e) b = if b = w.nextAddr then e else readH w b := rfl

theorem elements_writeH (w : World) (a : Nat) (e : Elem) :
    (writeH w a e).elements = w.elements := rfl

theorem elements_alloc (w : World) (e : Elem) :
    (alloc w e).elements = w.elements := rfl

theorem readH_set_elements (w : World) (X : List (String × Nat)) (b : Nat) :
    readH { w with elements := X } b = readH w b := rfl

theorem nextAddr_writeH (w : World) (a : Nat) (e : Elem) :
    (writeH w a e).nextAddr = w.nextAddr := rfl

theorem elements_set_elements (w : World) (X : List (String × Nat)) :
    ({ w with elements := X }).elements = X := rfl

theorem readH_mk (h : Nat → Elem) (el : List (String × Nat))
    (si sk : Option String) (na : Nat) (b : Nat) :
    readH ⟨h, el, si, sk, na⟩ b = h b := rfl

theorem heap_eq_readH (w : World) (b : Nat) : w.heap b = readH w b := rfl

/-! ## C4 — `save` persists diffs sequentially and fail-fast -/

theorem save_all_ok {ε : Type} (client : Diff → Except ε Unit)
    (diffs : List Diff) (h : ∀ d ∈ diffs, client d = Except.ok ()) :
    save client diffs = (diffs, Except.ok ()) := by
  induction diffs with
  | nil => rfl
  | cons d ds ih =>
    have hd : client d = Except.ok () := h d (List.mem_cons_self d ds)
    have hds := ih (fun d' hd' => h d' (List.mem_cons_of_mem d hd'))
    simp [save, saveDiff, hd, hds]

theorem save_stops_at_error {ε : Type} (client : Diff → Except ε Unit)
    (diffs : List Diff) (i : Nat) (hi : i < diffs.length) (e : ε)
    (hfail : client (diffs.get ⟨i, hi⟩) = Except.error e)
    (hok : ∀ j (hj : j < diffs.length), j < i →
      client (diffs.get ⟨j, hj⟩) = Except.ok ()) :
    save client diffs = (diffs.take (i + 1), Except.error e) := by
  induction diffs generalizing i with
  | nil => exact absurd hi (Nat.not_lt_zero i)
  | cons d ds ih =>
    cases i with
    | zero =>
      simp only [List.get] at hfail
      simp [save, saveDiff, hfail, List.take]
    | succ i' =>
      have hd : client d = Except.ok () := by
        have := hok 0 (Nat.succ_pos _) (Nat.succ_pos _)
        simpa [List.get] using this
      have hi' : i' < ds.length := Nat.lt_of_succ_lt_succ hi
      have hfail' : client (ds.get ⟨i', hi'⟩) = Except.error e := by
        simpa [List.get] using hfail
      have hok' : ∀ j (hj : j < ds.length), j < i' →
          client (ds.get ⟨j, hj⟩) = Except.ok () := by
        intro j hj hji
        have := hok (j + 1) (Nat.succ_lt_succ hj) (Nat.succ_lt_succ hji)
        simpa [List.get] using this
      simp [save, saveDiff, hd, ih i' hi' hfail' hok', List.take]

/-- C4: within one `save(diffs)` call the diffs are passed to the client
strictly in input order, each awaited to completion before the next begins;
if the diff at position `i` rejects, exactly the diffs at positions `0..i`
were attempted (so all before `i` were persisted and none after `i` is
attempted) and the rejection propagates to the caller of `save`. -/
theorem save_sequential_fail_fast {ε : Type} (client : Diff → Except ε Unit)
    (diffs : List Diff) :
    ((∀ d ∈ diffs, client d = Except.ok ()) →
      save client diffs = (diffs, Except.ok ())) ∧
    (∀ i (hi : i < diffs.length) (e : ε),
      client (diffs.get ⟨i, hi⟩) = Except.error e →
      (∀ j (hj : j < diffs.length), j < i →
        client (diffs.get ⟨j, hj⟩) = Except.ok ()) →
      save client diffs = (diffs.take (i + 1), Except.error e)) :=
  ⟨save_all_ok client diffs,
   fun i hi e hfail hok => save_stops_at_error client diffs i hi e hfail hok⟩

theorem save_sequential_fail_fast_witness :
    save
        (fun d => if d.action_type = "bad" then Except.error "boom"
          else Except.ok ())
        [⟨"a", [], ""⟩, ⟨"bad", [], ""⟩, ⟨"c", [], ""⟩]
      = ([⟨"a", [], ""⟩, ⟨"bad", [], ""⟩], Except.error "boom") :=
  (save_sequential_fail_fast
      (fun d => if d.action_type = "bad" then Except.error "boom"
        else Except.ok ())
      [⟨"a", [], ""⟩, ⟨"bad", [], ""⟩, ⟨"c", [], ""⟩]).2
    1 (by decide) "boom" (by rfl)
    (by
      intro j hj hji
      interval_cases j
      · rfl)

/-! ## C6 — `deleteElement` clears the selection unconditionally -/

/-- C6: after `deleteElement(e)` both `selectedId` and `selectedKey` are
`null`, whatever the element and the prior selection were (the trailing
`clearSelection()` is unconditional). -/
theorem deleteElement_clears_selection (w : World) (a : Nat) :
    (deleteElementOp w a).selectedId = none ∧
    (deleteElementOp w a).selectedKey = none := by
  simp [deleteElementOp, clearSelectionOp]

/-! ## C7 — `setSetting` writes only pre-existing composite keys -/

/-- C7: `setSetting(k, v)` writes `v` exactly when the composite key
`"world.<mode> settings.<k>"` (with `<mode>` the current `world.mode`)
already exists in the panel data, is the identity when that key is absent,
leaves every other key's value unchanged, and never creates or removes a
key. -/
theorem setSetting_guarded_write (data : List (String × String))
    (k v : String) :
    (lookupA data (compositeKey data k) = none →
      setSetting data k v = data) ∧
    ((lookupA data (compositeKey data k)).isSome →
      lookupA (setSetting data k v) (compositeKey data k) = some v ∧
      ∀ x, x ≠ compositeKey data k →
        lookupA (setSetting data k v) x = lookupA data x) ∧
    (∀ x, (lookupA (setSetting data k v) x).isSome =
      (lookupA data x).isSome) := by
  refine ⟨fun habs => ?_, fun hsome => ⟨?_, fun x hx => ?_⟩, fun x => ?_⟩
  · simp [setSetting, compositeKey] at habs ⊢
    simp [habs]
  · rcases Option.isSome_iff_exists.mp hsome with ⟨v0, hv0⟩
    simp only [setSetting, compositeKey] at hv0 ⊢
    simp [hv0, lookupA_updateA]
  · simp only [setSetting, compositeKey] at hx ⊢
    rcases h : lookupA data
      ("world." ++ jsStr (lookupA data "world.mode") ++ " settings." ++ k)
      with _ | v0
    · simp [h]
    · simp [h, lookupA_updateA, hx]
  · simp only [setSetting, compositeKey]
    rcases h : lookupA data
      ("world." ++ jsStr (lookupA data "world.mode") ++ " settings." ++ k)
      with _ | v0
    · simp [h]
    · by_cases hx : x =
        "world." ++ jsStr (lookupA data "world.mode") ++ " settings." ++ k
      · simp [h, lookupA_updateA, hx]
      · simp [h, lookupA_updateA, hx]

theorem setSetting_guarded_write_witness :
    lookupA
        (setSetting
          [("world.mode", "editor"), ("world.editor settings.grid", "1")]
          "grid" "2")
        "world.editor settings.grid" = some "2" ∧
    setSetting [("world.mode", "editor")] "grid" "2"
      = [("world.mode", "editor")] :=
  ⟨((setSetting_guarded_write
        [("world.mode", "editor"), ("world.editor settings.grid", "1")]
        "grid" "2").2.1 (by decide)).1,
   (setSetting_guarded_write [("world.mode", "editor")] "grid" "2").1
     (by decide)⟩

/-! ## C9 — `selectId` on falsy and unregistered ids -/

/-- C9: `selectId(id)` is a no-op on a falsy (empty) id; otherwise it sets
`selectedId` to `id` and changes nothing else (in particular `selectedKey`
is untouched), it performs no registry validation, and `getElementById` on
an unregistered id returns `undefined` (`none`). -/
theorem selectId_spec (w : World) (id : String) :
    (id = "" → selectIdOp w id = w) ∧
    (id ≠ "" →
      (selectIdOp w id).selectedId = some id ∧
      (selectIdOp w id).selectedKey = w.selectedKey ∧
      (selectIdOp w id).elements = w.elements ∧
      (selectIdOp w id).heap = w.heap) ∧
    (lookupA w.elements id = none →
      getElementById (selectIdOp w id) id = none) := by
  refine ⟨fun hempty => ?_, fun hne => ?_, fun habs => ?_⟩
  · simp [selectIdOp, hempty]
  · simp [selectIdOp, hne]
  · by_cases hid : id = ""
    · subst hid
      simp [selectIdOp, getElementById, habs]
    · simp [selectIdOp, getElementById, hid, habs]

theorem selectId_spec_witness :
    (selectIdOp initialWorld "x").selectedId = some "x" ∧
    (selectIdOp initialWorld "x").selectedKey = none ∧
    getElementById (selectIdOp initialWorld "x") "x" = none ∧
    selectIdOp initialWorld "" = initialWorld :=
  ⟨((selectId_spec initialWorld "x").2.1 (by decide)).1,
   (((selectId_spec initialWorld "x").2.1 (by decide)).2.1).trans rfl,
   (selectId_spec initialWorld "x").2.2 (by decide),
   (selectId_spec initialWorld "").1 rfl⟩

/-! ## C10 — `removeElement` side effects on the element and the selection -/

/-- C10 counterexample: `removeElement` with the parent id `""` — a value
that is non-null but falsy — takes the `else` branch and leaves
`element.parentId` untouched (here `some "root"`, not `none`), so the claim
"for every non-null parent id `p`, `removeElement(e, p)` sets `e.parentId`
to null" is false at `p = ""`. -/
theorem removeElement_empty_parent_keeps_parentId :
    ((removeElement
        (runOps initialWorld [EOp.create "a", EOp.append 1 (some "root")])
        1 (some "")).heap 1).parentId = some "root" ∧
    ((removeElement
        (runOps initialWorld [EOp.create "a", EOp.append 1 (some "root")])
        1 (some "")).heap 1).parentId ≠ none := by
  constructor
  · decide
  · decide

/-- C10 amended: for every truthy (non-null *and* non-empty) parent id `p`,
`removeElement(e, p)` sets `e.parentId` to `null` on the element object
itself; and for every parent id whatsoever, `removeElement` leaves both
`selectedId` and `selectedKey` unchanged, even when `e` was the selected
element — unlike `deleteElement`, which clears the selection. -/
theorem removeElement_effects (w : World) (a : Nat) (p : Option String) :
    ((removeElement w a p).selectedId = w.selectedId ∧
     (removeElement w a p).selectedKey = w.selectedKey) ∧
    (∀ s, p = some s → s ≠ "" →
      ((removeElement w a p).heap a).parentId = none) := by
  constructor
  · unfold removeElement
    by_cases ht : jsTruthyS p
    · simp only [ht, if_pos]
      rcases h : lookupA (writeH w a
          { readH w a with parentId := none }).elements (jsStr p) with _ | pa
      · simp [h, writeH]
      · simp [h, writeH]
    · simp [ht]
  · intro s hs hne
    subst hs
    have ht : jsTruthyS (some s) = true := by simp [jsTruthyS, hne]
    unfold removeElement
    simp only [ht, if_pos]
    rcases h : lookupA (writeH w a
        { readH w a with parentId := none }).elements (jsStr (some s))
      with _ | pa
    · simp [h, writeH, readH]
    · by_cases hpa : pa = a
      · subst hpa
        simp [h, writeH, readH]
      · simp [h, writeH, readH, hpa, Ne.symm hpa]

/-! ## C8 — `setSettings` and the mode resolution -/

theorem composite_ne_mode (m k : String) :
    "world." ++ m ++ " settings." ++ k ≠ "world.mode" := by
  intro h
  have hlen := congrArg String.length h
  rw [String.length_append, String.length_append, String.length_append]
    at hlen
  have h1 : "world.".length = 6 := by decide
  have h2 : " settings.".length = 10 := by decide
  have h3 : "world.mode".length = 10 := by decide
  omega

/-- C8 counterexample: `setSettings` is not the bulk variant of
`setSetting`: on a mapping whose (single) composite key is absent,
`setSetting` is a guarded no-op, while `setSettings` dereferences the
missing entry and throws (`none`). -/
theorem setSettings_not_bulk_setSetting :
    setSettings [("grid", "2")] [("world.mode", "editor")] = none ∧
    bulkSetSetting [("grid", "2")] [("world.mode", "editor")]
      = [("world.mode", "editor")] ∧
    setSettings [("grid", "2")] [("world.mode", "editor")]
      ≠ some (bulkSetSetting [("grid", "2")] [("world.mode", "editor")]) := by
  refine ⟨by decide, by decide, by decide⟩

/-- C8 amended: when every composite key of the given mapping exists in the
panel data, `setSettings(values)` writes each entry of the mapping in
iteration order; although the code re-reads `world.mode` on every loop
iteration, no write can alter the `world.mode` entry (a composite key is
never `"world.mode"`), so every written key is namespaced under the one mode
that was active when the call began.  When a composite key is absent,
`setSettings` throws rather than no-op like `setSetting`. -/
theorem setSettings_single_mode (values : List (String × String))
    (data : List (String × String)) (m : String)
    (hm : lookupA data "world.mode" = some m)
    (hkeys : ∀ kv ∈ values,
      (lookupA data ("world." ++ m ++ " settings." ++ kv.1)).isSome) :
    setSettings values data
      = some (values.foldl
          (fun d kv =>
            updateA d ("world." ++ m ++ " settings." ++ kv.1) kv.2)
          data) := by
  induction values generalizing data with
  | nil => simp [setSettings]
  | cons kv rest ih =>
    obtain ⟨k, v⟩ := kv
    have hk := hkeys (k, v) (List.mem_cons_self _ _)
    rcases Option.isSome_iff_exists.mp hk with ⟨v0, hv0⟩
    simp only [setSettings, hm, hv0, List.foldl_cons]
    apply ih
    · rw [lookupA_updateA]
      have : ¬ ("world.mode" = "world." ++ m ++ " settings." ++ k) :=
        fun hcm => composite_ne_mode m k hcm.symm
      simp [this, hm]
    · intro kv' hkv'
      rw [lookupA_updateA]
      by_cases hx : ("world." ++ m ++ " settings." ++ kv'.1)
          = ("world." ++ m ++ " settings." ++ k)
      · simp [hx, hv0]
      · simp only [hx, if_neg, if_false]
        exact hkeys kv' (List.mem_cons_of_mem _ hkv')

theorem setSettings_single_mode_witness :
    setSettings [("grid", "2"), ("snap", "on")]
        [("world.mode", "editor"), ("world.editor settings.grid", "1"),
         ("world.editor settings.snap", "off")]
      = some
        [("world.mode", "editor"), ("world.editor settings.grid", "2"),
         ("world.editor settings.snap", "on")] :=
  (setSettings_single_mode [("grid", "2"), ("snap", "on")]
      [("world.mode", "editor"), ("world.editor settings.grid", "1"),
       ("world.editor settings.snap", "off")]
      "editor" (by decide) (by decide)).trans (by decide)

theorem removeElement_effects_witness :
    ((removeElement
        (selectOp (runOps initialWorld
          [EOp.create "a", EOp.append 1 (some "root")]) 1)
        1 (some "root")).heap 1).parentId = none ∧
    (removeElement
        (selectOp (runOps initialWorld
          [EOp.create "a", EOp.append 1 (some "root")]) 1)
        1 (some "root")).selectedId = some "a" :=
  ⟨(removeElement_effects _ 1 (some "root")).2 "root" rfl (by decide),
   ((removeElement_effects _ 1 (some "root")).1.1).trans (by decide)⟩

/-! ## C1 — `appendElement` and the parent's `childIds` -/

/-- C1 counterexample: appending the same element to the same (existing)
parent twice pushes its id into the parent's `childIds` unconditionally —
the code has no absence check — so after a re-append the parent's
`childIds` contains the id twice, refuting "contains `e.id` exactly once
(even if `e` had already been appended to `p` before)". -/
theorem appendElement_double_append_duplicates :
    lookupA (runOps initialWorld
        [EOp.create "a", EOp.append 1 (some "root"),
         EOp.append 1 (some "root")]).elements "root" = some 0 ∧
    (readH (runOps initialWorld
        [EOp.create "a", EOp.append 1 (some "root"),
         EOp.append 1 (some "root")]) 0).childIds = ["a", "a"] ∧
    ((readH (runOps initialWorld
        [EOp.create "a", EOp.append 1 (some "root"),
         EOp.append 1 (some "root")]) 0).childIds).count "a" = 2 := by
  refine ⟨by decide, by decide, by decide⟩

/-- C1 amended: for an element not already appended — the registry has no
entry under `e.id` and `e.id` is not yet among the existing parent `p`'s
`childIds` — `appendElement(e, p)` appends `e.id` at the end of `p`'s
`childIds` (so it occurs exactly once), sets `e.parentId = p`, and sets
`e.index` to the string of the parent's `childIds` length minus one.
(A re-append instead duplicates the id, see the counterexample.) -/
theorem appendElement_fresh_append (w : World) (a pa : Nat) (ps : String)
    (hps : ps ≠ "")
    (hpa : lookupA w.elements ps = some pa)
    (hno : lookupA w.elements ((readH w a).id) = none)
    (hnotin : (readH w a).id ∉ (readH w pa).childIds) :
    lookupA (appendElement w a (some ps)).elements ps = some pa ∧
    (readH (appendElement w a (some ps)) pa).childIds
      = (readH w pa).childIds ++ [(readH w a).id] ∧
    ((readH (appendElement w a (some ps)) pa).childIds).count
      ((readH w a).id) = 1 ∧
    (readH (appendElement w a (some ps)) a).parentId = some ps ∧
    (readH (appendElement w a (some ps)) a).index
      = toString
          ((readH (appendElement w a (some ps)) pa).childIds.length - 1) := by
  have ht : jsTruthyS (some ps) = true := by simp [jsTruthyS, hps]
  have hcount :
      ((readH w pa).childIds ++ [(readH w a).id]).count ((readH w a).id)
        = 1 := by
    rw [List.count_append]
    rw [List.count_eq_zero.mpr hnotin]
    simp
  by_cases hapa : a = pa
  · subst hapa
    simp only [appendElement, ht, if_true, jsStr, elements_writeH, hpa,
      readH_writeH, if_pos rfl]
    simp only [hno]
    simp [readH_set_elements, readH_mk, heap_eq_readH, elements_set_elements, readH_writeH,
      lookupA_insertA, hcount]
  · have hpane : ¬ pa = a := fun h => hapa h.symm
    simp only [appendElement, ht, if_true, jsStr, elements_writeH, hpa,
      readH_writeH, if_pos rfl, if_neg hapa, if_neg hpane]
    simp only [hno]
    simp [readH_set_elements, readH_mk, heap_eq_readH, elements_set_elements, readH_writeH,
      lookupA_insertA, hcount, hapa, hpane]

theorem appendElement_fresh_append_witness :
    lookupA (appendElement (runOps initialWorld [EOp.create "a"]) 1
        (some "root")).elements "root" = some 0 ∧
    (readH (appendElement (runOps initialWorld [EOp.create "a"]) 1
        (some "root")) 0).childIds = [] ++ ["a"] :=
  ⟨(appendElement_fresh_append (runOps initialWorld [EOp.create "a"]) 1 0
      "root" (by decide) (by decide) (by decide) (by decide)).1,
   ((appendElement_fresh_append (runOps initialWorld [EOp.create "a"]) 1 0
      "root" (by decide) (by decide) (by decide) (by decide)).2.1).trans
     (by decide)⟩

/-! ## C3 — mutation in place versus copy-on-write snapshots -/

/-- C3 counterexample: `appendElement` builds the parent via
`Object.assign(el.elements[parentId] ?? {}, {...})`, which mutates the
existing parent object in place; a reader holding the previous `elements`
record (which still references that object) observes its `childIds` change,
refuting "the previous mapping value is never mutated in place by external
observers". -/
theorem appendElement_not_snapshot_preserving :
    ¬ snapshotPreserved (runOps initialWorld [EOp.create "a"])
        (appendElement (runOps initialWorld [EOp.create "a"]) 1
          (some "root")) := by
  intro h
  have h0 := h "root" 0 (by decide)
  have h1 : (readH (appendElement (runOps initialWorld [EOp.create "a"]) 1
      (some "root")) 0).childIds = ["a"] := by decide
  have h2 : (readH (runOps initialWorld [EOp.create "a"]) 0).childIds
      = ([] : List String) := by decide
  rw [h0, h2] at h1
  simp at h1

/-- `appendElement` with a truthy parent id bound to an object distinct
from the element mutates that parent object in place: its `childIds`
becomes the previous list with the element's id appended; objects other
than the parent and the element itself are unchanged. -/
theorem appendElement_mutates_parent_entry (w : World) (a pa : Nat)
    (ps : String) (hps : ps ≠ "")
    (hpa : lookupA w.elements ps = some pa) (hne : pa ≠ a) :
    (readH (appendElement w a (some ps)) pa).childIds
      = (readH w pa).childIds ++ [(readH w a).id] ∧
    (∀ b, b ≠ a → b ≠ pa → readH (appendElement w a (some ps)) b
      = readH w b) := by
  have ht : jsTruthyS (some ps) = true := by simp [jsTruthyS, hps]
  have hane : ¬ a = pa := fun h => hne h.symm
  constructor
  · simp only [appendElement, ht, if_true, jsStr, elements_writeH, hpa,
      readH_writeH, if_pos rfl, if_neg hane, if_neg hne]
    rcases hm : lookupA w.elements ((readH w a).id) with _ | ea
    · simp [hm, readH_set_elements, readH_mk, heap_eq_readH, readH_writeH, hane, hne]
    · simp [hm, readH_set_elements, readH_mk, heap_eq_readH, readH_writeH, hane, hne]
  · intro b hba hbpa
    simp only [appendElement, ht, if_true, jsStr, elements_writeH, hpa,
      readH_writeH, if_pos rfl, if_neg hane, if_neg hne]
    rcases hm : lookupA w.elements ((readH w a).id) with _ | ea
    · simp [hm, readH_set_elements, readH_mk, heap_eq_readH, readH_writeH, hba, hbpa]
    · simp [hm, readH_set_elements, readH_mk, heap_eq_readH, readH_writeH, hba, hbpa]

/-! ## C2 — the append/remove round trip -/

theorem objAssign_id_of (t s : Elem) (h : s.bare = false → s.id = t.id) :
    (objAssign t s).id = t.id := by
  cases hb : s.bare
  · simp [objAssign, hb, h hb]
  · simp [objAssign, hb]

/-- The element object keeps its id through `appendElement`: the only write
that could change it is the `Object.assign` merge from a pre-existing
registry entry, and a sane entry (a full object registered under the
element's own id) carries that same id, while a bare `{ childIds }` parent
object contributes no id at all. -/
theorem appendElement_id_stable (w : World) (a : Nat) (ps : String)
    (ha : a ≠ w.nextAddr)
    (hsane : ∀ ea, lookupA w.elements ((readH w a).id) = some ea →
      (readH w ea).bare = false → (readH w ea).id = (readH w a).id) :
    (readH (appendElement w a (some ps)) a).id = (readH w a).id := by
  have hna : ¬ w.nextAddr = a := fun h => ha h.symm
  by_cases ht : jsTruthyS (some ps)
  · rcases hp : lookupA w.elements ps with _ | pa
    · rcases hm : lookupA w.elements ((readH w a).id) with _ | ea
      · simp [appendElement, ht, jsStr, hp, hm, readH_alloc, nextAddr_writeH,
          ha, hna, readH_writeH, readH_mk, heap_eq_readH, elements_writeH,
          readH_set_elements]
      · by_cases hea1 : ea = w.nextAddr
        · simp [appendElement, ht, jsStr, hp, hm, readH_alloc,
            nextAddr_writeH, ha, hna, hea1, readH_writeH, readH_mk,
            heap_eq_readH, elements_writeH, readH_set_elements, objAssign]
        · have hea1s : ¬ w.nextAddr = ea := fun h => hea1 h.symm
          by_cases hea2 : ea = a
          · cases hb : (readH w a).bare
            · simp [appendElement, ht, jsStr, hp, hm, readH_alloc,
                nextAddr_writeH, ha, hna, hea1, hea1s, hea2, readH_writeH,
                readH_mk, heap_eq_readH, elements_writeH, readH_set_elements,
                objAssign, hb]
            · simp [appendElement, ht, jsStr, hp, hm, readH_alloc,
                nextAddr_writeH, ha, hna, hea1, hea1s, hea2, readH_writeH,
                readH_mk, heap_eq_readH, elements_writeH, readH_set_elements,
                objAssign, hb]
          · have hea2s : ¬ a = ea := fun h => hea2 h.symm
            cases hb : (readH w ea).bare
            · simp [appendElement, ht, jsStr, hp, hm, readH_alloc,
                nextAddr_writeH, ha, hna, hea1, hea1s, hea2, hea2s,
                readH_writeH, readH_mk, heap_eq_readH, elements_writeH,
                readH_set_elements, objAssign, hb, hsane ea hm hb]
            · simp [appendElement, ht, jsStr, hp, hm, readH_alloc,
                nextAddr_writeH, ha, hna, hea1, hea1s, hea2, hea2s,
                readH_writeH, readH_mk, heap_eq_readH, elements_writeH,
                readH_set_elements, objAssign, hb]
    · by_cases hapa : a = pa
      · rcases hm : lookupA w.elements ((readH w a).id) with _ | ea
        · have hm2 : lookupA w.elements ((readH w pa).id) = none := by
            rw [← hapa]; exact hm
          simp [appendElement, ht, jsStr, hp, hm, hm2, hapa, readH_writeH,
            readH_mk, heap_eq_readH, elements_writeH, readH_set_elements]
        · have hm2 : lookupA w.elements ((readH w pa).id) = some ea := by
            rw [← hapa]; exact hm
          by_cases hea2 : ea = a
          · cases hb : (readH w a).bare
            · simp [appendElement, ht, jsStr, hp, hm, hm2, hapa, hea2,
                readH_writeH, readH_mk, heap_eq_readH, elements_writeH,
                readH_set_elements, objAssign, hb]
            · simp [appendElement, ht, jsStr, hp, hm, hm2, hapa, hea2,
                readH_writeH, readH_mk, heap_eq_readH, elements_writeH,
                readH_set_elements, objAssign, hb]
          · have hea2s : ¬ a = ea := fun h => hea2 h.symm
            have hea3 : ¬ ea = pa := fun h => hea2 (h.trans hapa.symm)
            have hea3s : ¬ pa = ea := fun h => hea3 h.symm
            cases hb : (readH w ea).bare
            · simp [appendElement, ht, jsStr, hp, hm, hm2, hapa, hea2,
                hea2s, hea3, hea3s, readH_writeH, readH_mk, heap_eq_readH,
                elements_writeH, readH_set_elements, objAssign, hb,
                hsane ea hm hb]
            · simp [appendElement, ht, jsStr, hp, hm, hm2, hapa, hea2,
                hea2s, hea3, hea3s, readH_writeH, readH_mk, heap_eq_readH,
                elements_writeH, readH_set_elements, objAssign, hb]
      · have hpane : ¬ pa = a := fun h => hapa h.symm
        rcases hm : lookupA w.elements ((readH w a).id) with _ | ea
        · simp [appendElement, ht, jsStr, hp, hm, hapa, hpane, readH_writeH,
            readH_mk, heap_eq_readH, elements_writeH, readH_set_elements]
        · by_cases hea1 : ea = pa
          · have hea1s : ¬ a = ea := fun h => hapa (h.trans hea1)
            cases hb : (readH w ea).bare
            · have hb2 : (readH w pa).bare = false := by
                rw [← hea1]; exact hb
              have hid2 : (readH w pa).id = (readH w a).id := by
                rw [← hea1]; exact hsane ea hm hb
              simp [appendElement, ht, jsStr, hp, hm, hapa, hpane, hea1,
                hea1s, readH_writeH, readH_mk, heap_eq_readH,
                elements_writeH, readH_set_elements, objAssign, hb, hb2,
                hid2]
            · have hb2 : (readH w pa).bare = true := by
                rw [← hea1]; exact hb
              simp [appendElement, ht, jsStr, hp, hm, hapa, hpane, hea1,
                hea1s, readH_writeH, readH_mk, heap_eq_readH,
                elements_writeH, readH_set_elements, objAssign, hb, hb2]
          · have hea1s : ¬ pa = ea := fun h => hea1 h.symm
            by_cases hea2 : ea = a
            · cases hb : (readH w a).bare
              · simp [appendElement, ht, jsStr, hp, hm, hapa, hpane, hea1,
                  hea1s, hea2, readH_writeH, readH_mk, heap_eq_readH,
                  elements_writeH, readH_set_elements, objAssign, hb]
              · simp [appendElement, ht, jsStr, hp, hm, hapa, hpane, hea1,
                  hea1s, hea2, readH_writeH, readH_mk, heap_eq_readH,
                  elements_writeH, readH_set_elements, objAssign, hb]
            · have hea2s : ¬ a = ea := fun h => hea2 h.symm
              cases hb : (readH w ea).bare
              · simp [appendElement, ht, jsStr, hp, hm, hapa, hpane, hea1,
                  hea1s, hea2, hea2s, readH_writeH, readH_mk, heap_eq_readH,
                  elements_writeH, readH_set_elements, objAssign, hb,
                  hsane ea hm hb]
              · simp [appendElement, ht, jsStr, hp, hm, hapa, hpane, hea1,
                  hea1s, hea2, hea2s, readH_writeH, readH_mk, heap_eq_readH,
                  elements_writeH, readH_set_elements, objAssign, hb]
  · rcases hm : lookupA w.elements ((readH w a).id) with _ | ea
    · simp [appendElement, ht, hm, readH_set_elements, readH_mk,
        heap_eq_readH]
    · by_cases hea2 : ea = a
      · cases hb : (readH w a).bare
        · simp [appendElement, ht, hm, hea2, readH_set_elements, readH_mk,
            heap_eq_readH, readH_writeH, objAssign, hb]
        · simp [appendElement, ht, hm, hea2, readH_set_elements, readH_mk,
            heap_eq_readH, readH_writeH, objAssign, hb]
      · have hea2s : ¬ a = ea := fun h => hea2 h.symm
        cases hb : (readH w ea).bare
        · simp [appendElement, ht, hm, hea2, hea2s, readH_set_elements,
            readH_mk, heap_eq_readH, readH_writeH, objAssign, hb,
            hsane ea hm hb]
        · simp [appendElement, ht, hm, hea2, hea2s, readH_set_elements,
            readH_mk, heap_eq_readH, readH_writeH, objAssign, hb]

/-- Id stability through `appendElement` with a null parent id (the
`else` branch): the merge is the only write, and it preserves the id for a
sane registry. -/
theorem appendElement_none_id_stable (w : World) (a : Nat)
    (hsane : ∀ ea, lookupA w.elements ((readH w a).id) = some ea →
      (readH w ea).bare = false → (readH w ea).id = (readH w a).id) :
    (readH (appendElement w a none) a).id = (readH w a).id := by
  have ht : jsTruthyS (none : Option String) = false := rfl
  rcases hm : lookupA w.elements ((readH w a).id) with _ | ea
  · simp [appendElement, ht, hm, readH_set_elements, readH_mk,
      heap_eq_readH]
  · by_cases hea2 : ea = a
    · cases hb : (readH w a).bare
      · simp [appendElement, ht, hm, hea2, readH_set_elements, readH_mk,
          heap_eq_readH, readH_writeH, objAssign, hb]
      · simp [appendElement, ht, hm, hea2, readH_set_elements, readH_mk,
          heap_eq_readH, readH_writeH, objAssign, hb]
    · have hea2s : ¬ a = ea := fun h => hea2 h.symm
      cases hb : (readH w ea).bare
      · simp [appendElement, ht, hm, hea2, hea2s, readH_set_elements,
          readH_mk, heap_eq_readH, readH_writeH, objAssign, hb,
          hsane ea hm hb]
      · simp [appendElement, ht, hm, hea2, hea2s, readH_set_elements,
          readH_mk, heap_eq_readH, readH_writeH, objAssign, hb]

/-- Id stability through `appendElement` for an arbitrary parent id
(null, empty or non-empty). -/
theorem appendElement_id_stable_any (w : World) (a : Nat)
    (p : Option String) (ha : a ≠ w.nextAddr)
    (hsane : ∀ ea, lookupA w.elements ((readH w a).id) = some ea →
      (readH w ea).bare = false → (readH w ea).id = (readH w a).id) :
    (readH (appendElement w a p) a).id = (readH w a).id := by
  rcases p with _ | s
  · exact appendElement_none_id_stable w a hsane
  · exact appendElement_id_stable w a s ha hsane

/-- With a truthy parent id, `removeElement` deletes exactly the binding
under the element's id from the `elements` record. -/
theorem removeElement_truthy_elements (w : World) (a : Nat) (ps : String)
    (hps : ps ≠ "") :
    (removeElement w a (some ps)).elements
      = eraseA w.elements ((readH w a).id) := by
  have ht : jsTruthyS (some ps) = true := by simp [jsTruthyS, hps]
  simp only [removeElement, ht, if_true, jsStr, elements_writeH]
  rcases hp : lookupA w.elements ps with _ | pa
  · simp [hp, elements_set_elements, readH_writeH]
  · by_cases hapa : a = pa
    · subst hapa
      simp [hp, elements_set_elements, readH_writeH]
    · simp [hp, elements_set_elements, readH_writeH, hapa]

/-- With a truthy parent id bound to `pa`, `removeElement` leaves the
parent object's `childIds` as the filter of the previous list dropping the
element's id. -/
theorem removeElement_truthy_childIds (w : World) (a pa : Nat) (ps : String)
    (hps : ps ≠ "") (hpa : lookupA w.elements ps = some pa) :
    (readH (removeElement w a (some ps)) pa).childIds
      = (readH w pa).childIds.filter (fun c => c ≠ (readH w a).id) := by
  have ht : jsTruthyS (some ps) = true := by simp [jsTruthyS, hps]
  simp only [removeElement, ht, if_true, jsStr, elements_writeH, hpa]
  by_cases hapa : a = pa
  · subst hapa
    simp [readH_set_elements, readH_mk, heap_eq_readH, readH_writeH]
  · have hpane : ¬ pa = a := fun h => hapa h.symm
    simp [readH_set_elements, readH_mk, heap_eq_readH, readH_writeH, hapa,
      hpane]

/-- With a truthy parent id, `removeElement` writes only the element and
the parent object; every other object is untouched. -/
theorem removeElement_truthy_frame (w : World) (a pa : Nat) (ps : String)
    (hps : ps ≠ "") (hpa : lookupA w.elements ps = some pa) :
    ∀ b, b ≠ a → b ≠ pa →
      readH (removeElement w a (some ps)) b = readH w b := by
  intro b hba hbpa
  have ht : jsTruthyS (some ps) = true := by simp [jsTruthyS, hps]
  simp only [removeElement, ht, if_true, jsStr, elements_writeH, hpa]
  simp [readH_set_elements, readH_mk, heap_eq_readH, readH_writeH, hba,
    hbpa]

theorem removeElement_char (w : World) (a : Nat) (p : Option String) :
    (removeElement w a p).elements = eraseA w.elements ((readH w a).id) ∧
    (removeElement w a p).nextAddr = w.nextAddr ∧
    (∀ b, b ≠ a →
      (readH (removeElement w a p) b).id = (readH w b).id ∧
      (readH (removeElement w a p) b).parentId = (readH w b).parentId) ∧
    (readH (removeElement w a p) a).id = (readH w a).id := by
  by_cases ht : jsTruthyS p
  · rcases p with _ | s
    · simp [jsTruthyS] at ht
    · have hps : s ≠ "" := by simpa [jsTruthyS] using ht
      refine ⟨removeElement_truthy_elements w a s hps, ?_, ?_, ?_⟩
      · simp only [removeElement, ht, if_true, jsStr, elements_writeH]
        split <;> rfl
      · intro b hba
        simp only [removeElement, ht, if_true, jsStr, elements_writeH]
        rcases hpa : lookupA w.elements s with _ | pa
        · simp [hpa, readH_set_elements, readH_mk, heap_eq_readH,
            readH_writeH, hba]
        · by_cases hbpa : b = pa
          · constructor <;>
              simp [hpa, hbpa, readH_set_elements, readH_mk, heap_eq_readH,
                readH_writeH, hba,
                (show ¬ pa = a from fun h => hba (hbpa.trans h))]
          · simp [hpa, hbpa, readH_set_elements, readH_mk, heap_eq_readH,
              readH_writeH, hba]
      · simp only [removeElement, ht, if_true, jsStr, elements_writeH]
        rcases hpa : lookupA w.elements s with _ | pa
        · simp [hpa, readH_set_elements, readH_mk, heap_eq_readH,
            readH_writeH]
        · by_cases hapa : a = pa
          · simp [hpa, hapa, readH_set_elements, readH_mk, heap_eq_readH,
              readH_writeH]
          · simp [hpa, hapa, (show ¬ pa = a from fun h => hapa h.symm),
              readH_set_elements, readH_mk, heap_eq_readH, readH_writeH]
  · have htf : jsTruthyS p = false := by
      revert ht; cases jsTruthyS p <;> simp
    refine ⟨?_, ?_, ?_, ?_⟩ <;>
      simp [removeElement, htf, readH_set_elements, readH_mk, heap_eq_readH,
        elements_set_elements]

theorem appendElement_falsy_elements (w : World) (a : Nat)
    (p : Option String) (hp : jsTruthyS p = false) :
    (appendElement w a p).elements
      = insertA w.elements ((readH w a).id) a := by
  simp only [appendElement, hp, Bool.false_eq_true, if_false]

/-- C2: for every parent id `p` — null, empty or non-empty —
`appendElement(e, p)` followed by `removeElement(e, p)` leaves a registry
where `e.id` is absent from the `elements` record, and absent from the
`childIds` of whatever entry the registry holds for `p`.  Hypotheses
(true of every state the code builds): `e` is an allocated object, the
registry never binds the empty-string key (element ids are non-empty), and
a full entry stored under `e.id` carries that same id. -/
theorem append_remove_roundtrip (w : World) (a : Nat) (p : Option String)
    (ha : a ≠ w.nextAddr)
    (hempty : lookupA w.elements "" = none)
    (hsane : ∀ ea, lookupA w.elements ((readH w a).id) = some ea →
      (readH w ea).bare = false → (readH w ea).id = (readH w a).id) :
    lookupA (removeElement (appendElement w a p) a p).elements
        ((readH w a).id) = none ∧
    ∀ s ad, p = some s →
      lookupA (removeElement (appendElement w a p) a p).elements s
        = some ad →
      (readH w a).id ∉
        (readH (removeElement (appendElement w a p) a p) ad).childIds := by
  have hid := appendElement_id_stable_any w a p ha hsane
  obtain ⟨hel2, -, -, -⟩ := removeElement_char (appendElement w a p) a p
  rw [hid] at hel2
  constructor
  · rw [hel2, lookupA_eraseA, if_pos rfl]
  · intro s ad hp hlook
    subst hp
    rw [hel2, lookupA_eraseA] at hlook
    by_cases hsid : s = (readH w a).id
    · rw [if_pos hsid] at hlook
      exact Option.noConfusion hlook
    · rw [if_neg hsid] at hlook
      by_cases hts : s = ""
      · -- falsy parent id: neither operation touches an entry for `""`,
        -- and no such entry exists
        exfalso
        subst hts
        have htf : jsTruthyS (some "") = false := by decide
        rw [appendElement_falsy_elements w a (some "") htf,
          lookupA_insertA, if_neg hsid, hempty] at hlook
        exact Option.noConfusion hlook
      · have hch := removeElement_truthy_childIds (appendElement w a
          (some s)) a ad s hts hlook
        rw [hid] at hch
        rw [hch]
        simp

theorem append_remove_roundtrip_witness :
    lookupA (removeElement (appendElement
        (runOps initialWorld [EOp.create "b"]) 1 (some "root")) 1
        (some "root")).elements "b" = none ∧
    ("b" : String) ∉
      (readH (removeElement (appendElement
          (runOps initialWorld [EOp.create "b"]) 1 (some "root")) 1
          (some "root")) 0).childIds := by
  have hsane : ∀ ea,
      lookupA (runOps initialWorld [EOp.create "b"]).elements
        ((readH (runOps initialWorld [EOp.create "b"]) 1).id) = some ea →
      (readH (runOps initialWorld [EOp.create "b"]) ea).bare = false →
      (readH (runOps initialWorld [EOp.create "b"]) ea).id
        = (readH (runOps initialWorld [EOp.create "b"]) 1).id := by
    intro ea hea hb
    have hnone : lookupA (runOps initialWorld [EOp.create "b"]).elements
        ((readH (runOps initialWorld [EOp.create "b"]) 1).id) = none := by
      decide
    rw [hnone] at hea
    exact Option.noConfusion hea
  have h := append_remove_roundtrip (runOps initialWorld [EOp.create "b"]) 1
    (some "root") (by decide) (by decide) hsane
  refine ⟨?_, ?_⟩
  · have := h.1
    rwa [show (readH (runOps initialWorld [EOp.create "b"]) 1).id = "b"
      from by decide] at this
  · have := h.2 "root" 0 rfl (by decide)
    rwa [show (readH (runOps initialWorld [EOp.create "b"]) 1).id = "b"
      from by decide] at this

/-- C3 amended: neither structural operation is copy-on-write at the
granularity readers rely on.  With a truthy parent id bound to an object
distinct from the element, `appendElement(e, p)` mutates that parent object
in place — its `childIds` becomes the previous list with `e.id` appended —
and `removeElement(e, p)` mutates it in place as well — its `childIds`
becomes the previous list filtered of `e.id`; a reader holding the previous
mapping (which still references that object) observes both changes.  Only
objects other than the parent and the element itself are left unchanged.
(`removeElement` with a null parent id moreover deletes the element's
binding from the existing top-level record in place rather than building a
new record.) -/
theorem parent_entry_mutated_in_place (w : World) (a pa : Nat)
    (ps : String) (hps : ps ≠ "")
    (hpa : lookupA w.elements ps = some pa) (hne : pa ≠ a) :
    ((readH (appendElement w a (some ps)) pa).childIds
        = (readH w pa).childIds ++ [(readH w a).id] ∧
      ∀ b, b ≠ a → b ≠ pa →
        readH (appendElement w a (some ps)) b = readH w b) ∧
    ((readH (removeElement w a (some ps)) pa).childIds
        = (readH w pa).childIds.filter (fun c => c ≠ (readH w a).id) ∧
      ∀ b, b ≠ a → b ≠ pa →
        readH (removeElement w a (some ps)) b = readH w b) :=
  ⟨appendElement_mutates_parent_entry w a pa ps hps hpa hne,
   removeElement_truthy_childIds w a pa ps hps hpa,
   removeElement_truthy_frame w a pa ps hps hpa⟩

theorem parent_entry_mutated_in_place_witness :
    (readH (appendElement (runOps initialWorld
        [EOp.create "a", EOp.append 1 (some "root")]) 1
        (some "root")) 0).childIds = ["a", "a"] ∧
    (readH (removeElement (runOps initialWorld
        [EOp.create "a", EOp.append 1 (some "root")]) 1
        (some "root")) 0).childIds = [] :=
  ⟨((parent_entry_mutated_in_place (runOps initialWorld
        [EOp.create "a", EOp.append 1 (some "root")]) 1 0 "root"
        (by decide) (by decide) (by decide)).1.1).trans (by decide),
   ((parent_entry_mutated_in_place (runOps initialWorld
        [EOp.create "a", EOp.append 1 (some "root")]) 1 0 "root"
        (by decide) (by decide) (by decide)).2.1).trans (by decide)⟩

/-! ## C5 — the root entry invariant

Characterisation lemmas for the structural operations, used to prove the
(amended) invariant that the registry keeps a `root` entry with a null
`parentId`. -/

theorem appendElement_found_nextAddr (w : World) (a pa : Nat) (s : String)
    (hps : s ≠ "") (hp : lookupA w.elements s = some pa) :
    (appendElement w a (some s)).nextAddr = w.nextAddr := by
  have ht : jsTruthyS (some s) = true := by simp [jsTruthyS, hps]
  simp only [appendElement, ht, if_true, jsStr, elements_writeH, hp]
  split <;> rfl

theorem appendElement_found_elements (w : World) (a pa : Nat) (s : String)
    (hps : s ≠ "") (hp : lookupA w.elements s = some pa) :
    (appendElement w a (some s)).elements
      = insertA (insertA w.elements
          ((readH (appendElement w a (some s)) a).id) a) s pa := by
  have ht : jsTruthyS (some s) = true := by simp [jsTruthyS, hps]
  simp only [appendElement, ht, if_true, jsStr, elements_writeH, hp]
  split <;> simp [readH_set_elements, readH_mk, heap_eq_readH, readH_writeH]

theorem appendElement_found_frame (w : World) (a pa : Nat) (s : String)
    (hps : s ≠ "") (hp : lookupA w.elements s = some pa) :
    ∀ b, b ≠ a → b ≠ pa →
      readH (appendElement w a (some s)) b = readH w b := by
  have ht : jsTruthyS (some s) = true := by simp [jsTruthyS, hps]
  intro b hba hbpa
  simp only [appendElement, ht, if_true, jsStr, elements_writeH, hp]
  split <;>
    simp [readH_set_elements, readH_mk, heap_eq_readH, readH_writeH, hba,
      hbpa]

theorem appendElement_found_at_parent (w : World) (a pa : Nat) (s : String)
    (hps : s ≠ "") (hp : lookupA w.elements s = some pa) (hpaa : pa ≠ a) :
    (readH (appendElement w a (some s)) pa).id = (readH w pa).id ∧
    (readH (appendElement w a (some s)) pa).parentId
      = (readH w pa).parentId := by
  have ht : jsTruthyS (some s) = true := by simp [jsTruthyS, hps]
  simp only [appendElement, ht, if_true, jsStr, elements_writeH, hp]
  split <;>
    simp [readH_set_elements, readH_mk, heap_eq_readH, readH_writeH, hpaa]

theorem appendElement_alloc_nextAddr (w : World) (a : Nat) (s : String)
    (hps : s ≠ "") (hp : lookupA w.elements s = none) :
    (appendElement w a (some s)).nextAddr = w.nextAddr + 1 := by
  have ht : jsTruthyS (some s) = true := by simp [jsTruthyS, hps]
  simp only [appendElement, ht, if_true, jsStr, elements_writeH, hp]
  split <;> rfl

theorem appendElement_alloc_elements (w : World) (a : Nat) (s : String)
    (hps : s ≠ "") (hp : lookupA w.elements s = none) :
    (appendElement w a (some s)).elements
      = insertA (insertA w.elements
          ((readH (appendElement w a (some s)) a).id) a) s w.nextAddr := by
  have ht : jsTruthyS (some s) = true := by simp [jsTruthyS, hps]
  simp only [appendElement, ht, if_true, jsStr, elements_writeH, hp]
  split <;>
    simp [readH_set_elements, readH_mk, heap_eq_readH, readH_writeH,
      nextAddr_writeH]

theorem appendElement_alloc_frame (w : World) (a : Nat) (s : String)
    (hps : s ≠ "") (hp : lookupA w.elements s = none) :
    ∀ b, b ≠ a → b ≠ w.nextAddr →
      readH (appendElement w a (some s)) b = readH w b := by
  have ht : jsTruthyS (some s) = true := by simp [jsTruthyS, hps]
  intro b hba hbf
  simp only [appendElement, ht, if_true, jsStr, elements_writeH, hp]
  split <;>
    simp [readH_set_elements, readH_mk, heap_eq_readH, readH_writeH,
      readH_alloc, nextAddr_writeH, hba, hbf]

theorem appendElement_alloc_fresh_id (w : World) (a : Nat) (s : String)
    (hps : s ≠ "") (hp : lookupA w.elements s = none)
    (ha : a ≠ w.nextAddr) :
    (readH (appendElement w a (some s)) w.nextAddr).id = "" := by
  have ht : jsTruthyS (some s) = true := by simp [jsTruthyS, hps]
  have hna : ¬ w.nextAddr = a := fun h => ha h.symm
  simp only [appendElement, ht, if_true, jsStr, elements_writeH, hp]
  split <;>
    simp [readH_set_elements, readH_mk, heap_eq_readH, readH_writeH,
      readH_alloc, nextAddr_writeH, hna, blankElem]

theorem appendElement_falsy_nextAddr (w : World) (a : Nat)
    (p : Option String) (hp : jsTruthyS p = false) :
    (appendElement w a p).nextAddr = w.nextAddr := by
  simp only [appendElement, hp, Bool.false_eq_true, if_false]
  split <;> rfl

theorem appendElement_falsy_frame (w : World) (a : Nat) (p : Option String)
    (hp : jsTruthyS p = false) :
    ∀ b, b ≠ a → readH (appendElement w a p) b = readH w b := by
  intro b hba
  simp only [appendElement, hp, Bool.false_eq_true, if_false]
  split <;>
    simp [readH_set_elements, readH_mk, heap_eq_readH, readH_writeH, hba]

/-- The id of the element object after `appendElement` is either its own
previous id (no pre-existing entry, or a bare-object merge) or the id of the
full object the registry already held under the element's id. -/
theorem appendElement_id_dichotomy (w : World) (a : Nat) (p : Option String)
    (ha : a ≠ w.nextAddr) :
    (readH (appendElement w a p) a).id = (readH w a).id ∨
    ∃ ea, lookupA w.elements ((readH w a).id) = some ea ∧
      (readH (appendElement w a p) a).id = (readH w ea).id := by
  rcases hm : lookupA w.elements ((readH w a).id) with _ | ea
  · left
    by_cases ht : jsTruthyS p
    · rcases hv : p with _ | s
      · rw [hv] at ht
        simp [jsTruthyS] at ht
      · rw [hv] at ht
        have hps : s ≠ "" := by simpa [jsTruthyS] using ht
        rcases hp : lookupA w.elements s with _ | pa
        · have := appendElement_alloc_frame w a s hps hp
          have hna : ¬ w.nextAddr = a := fun h => ha h.symm
          simp only [appendElement, ht, if_true, jsStr, elements_writeH,
            hp]
          simp [hm, readH_set_elements, readH_mk, heap_eq_readH,
            readH_writeH, readH_alloc, nextAddr_writeH, ha, hna]
        · by_cases hapa : a = pa
          · have hm2 : lookupA w.elements ((readH w pa).id) = none := by
              rw [← hapa]; exact hm
            simp only [appendElement, ht, if_true, jsStr, elements_writeH,
              hp]
            simp [hm, hm2, hapa, readH_set_elements, readH_mk,
              heap_eq_readH, readH_writeH]
          · have hpane : ¬ pa = a := fun h => hapa h.symm
            simp only [appendElement, ht, if_true, jsStr, elements_writeH,
              hp]
            simp [hm, hapa, hpane, readH_set_elements, readH_mk,
              heap_eq_readH, readH_writeH]
    · have htf : jsTruthyS p = false := by
        revert ht; cases jsTruthyS p <;> simp
      simp only [appendElement, htf, Bool.false_eq_true, if_false]
      simp [hm, readH_set_elements, readH_mk, heap_eq_readH]
  · by_cases ht : jsTruthyS p
    · rcases hv : p with _ | s
      · rw [hv] at ht
        simp [jsTruthyS] at ht
      · rw [hv] at ht
        have hps : s ≠ "" := by simpa [jsTruthyS] using ht
        rcases hp : lookupA w.elements s with _ | pa
        · -- fresh parent allocated; the entry `ea` cannot be the fresh cell
          have hna : ¬ w.nextAddr = a := fun h => ha h.symm
          by_cases hea1 : ea = w.nextAddr
          · left
            simp only [appendElement, ht, if_true, jsStr, elements_writeH,
              hp]
            simp [hm, hea1, readH_set_elements, readH_mk, heap_eq_readH,
              readH_writeH, readH_alloc, nextAddr_writeH, ha, hna,
              objAssign]
          · have hea1s : ¬ w.nextAddr = ea := fun h => hea1 h.symm
            by_cases hea2 : ea = a
            · cases hb : (readH w a).bare
              · right
                refine ⟨ea, rfl, ?_⟩
                simp only [appendElement, ht, if_true, jsStr,
                  elements_writeH, hp]
                simp [hm, hea1, hea1s, hea2, readH_set_elements, readH_mk,
                  heap_eq_readH, readH_writeH, readH_alloc, nextAddr_writeH,
                  ha, hna, objAssign, hb]
              · right
                refine ⟨ea, rfl, ?_⟩
                simp only [appendElement, ht, if_true, jsStr,
                  elements_writeH, hp]
                simp [hm, hea1, hea1s, hea2, readH_set_elements, readH_mk,
                  heap_eq_readH, readH_writeH, readH_alloc, nextAddr_writeH,
                  ha, hna, objAssign, hb]
            · have hea2s : ¬ a = ea := fun h => hea2 h.symm
              cases hb : (readH w ea).bare
              · right
                refine ⟨ea, rfl, ?_⟩
                simp only [appendElement, ht, if_true, jsStr,
                  elements_writeH, hp]
                simp [hm, hea1, hea1s, hea2, hea2s, readH_set_elements,
                  readH_mk, heap_eq_readH, readH_writeH, readH_alloc,
                  nextAddr_writeH, ha, hna, objAssign, hb]
              · left
                simp only [appendElement, ht, if_true, jsStr,
                  elements_writeH, hp]
                simp [hm, hea1, hea1s, hea2, hea2s, readH_set_elements,
                  readH_mk, heap_eq_readH, readH_writeH, readH_alloc,
                  nextAddr_writeH, ha, hna, objAssign, hb]
        · by_cases hapa : a = pa
          · have hm2 : lookupA w.elements ((readH w pa).id) = some ea := by
              rw [← hapa]; exact hm
            by_cases hea2 : ea = a
            · cases hb : (readH w a).bare
              · right
                refine ⟨ea, rfl, ?_⟩
                simp only [appendElement, ht, if_true, jsStr,
                  elements_writeH, hp]
                simp [hm, hm2, hapa, hea2, readH_set_elements, readH_mk,
                  heap_eq_readH, readH_writeH, objAssign, hb]
              · right
                refine ⟨ea, rfl, ?_⟩
                simp only [appendElement, ht, if_true, jsStr,
                  elements_writeH, hp]
                simp [hm, hm2, hapa, hea2, readH_set_elements, readH_mk,
                  heap_eq_readH, readH_writeH, objAssign, hb]
            · have hea2s : ¬ a = ea := fun h => hea2 h.symm
              have hea3 : ¬ ea = pa := fun h => hea2 (h.trans hapa.symm)
              have hea3s : ¬ pa = ea := fun h => hea3 h.symm
              cases hb : (readH w ea).bare
              · right
                refine ⟨ea, rfl, ?_⟩
                simp only [appendElement, ht, if_true, jsStr,
                  elements_writeH, hp]
                simp [hm, hm2, hapa, hea2, hea2s, hea3, hea3s,
                  readH_set_elements, readH_mk, heap_eq_readH, readH_writeH,
                  objAssign, hb]
              · left
                simp only [appendElement, ht, if_true, jsStr,
                  elements_writeH, hp]
                simp [hm, hm2, hapa, hea2, hea2s, hea3, hea3s,
                  readH_set_elements, readH_mk, heap_eq_readH, readH_writeH,
                  objAssign, hb]
          · have hpane : ¬ pa = a := fun h => hapa h.symm
            by_cases hea1 : ea = pa
            · cases hb : (readH w ea).bare
              · right
                refine ⟨ea, rfl, ?_⟩
                have hb2 : (readH w pa).bare = false := by
                  rw [← hea1]; exact hb
                have hba : ¬ a = ea := fun h => hapa (h.trans hea1)
                simp only [appendElement, ht, if_true, jsStr,
                  elements_writeH, hp]
                simp [hm, hapa, hpane, hea1, hba, readH_set_elements,
                  readH_mk, heap_eq_readH, readH_writeH, objAssign, hb, hb2]
              · left
                have hb2 : (readH w pa).bare = true := by
                  rw [← hea1]; exact hb
                have hba : ¬ a = ea := fun h => hapa (h.trans hea1)
                simp only [appendElement, ht, if_true, jsStr,
                  elements_writeH, hp]
                simp [hm, hapa, hpane, hea1, hba, readH_set_elements,
                  readH_mk, heap_eq_readH, readH_writeH, objAssign, hb, hb2]
            · have hea1s : ¬ pa = ea := fun h => hea1 h.symm
              by_cases hea2 : ea = a
              · cases hb : (readH w a).bare
                · right
                  refine ⟨ea, rfl, ?_⟩
                  simp only [appendElement, ht, if_true, jsStr,
                    elements_writeH, hp]
                  simp [hm, hapa, hpane, hea1, hea1s, hea2,
                    readH_set_elements, readH_mk, heap_eq_readH,
                    readH_writeH, objAssign, hb]
                · right
                  refine ⟨ea, rfl, ?_⟩
                  simp only [appendElement, ht, if_true, jsStr,
                    elements_writeH, hp]
                  simp [hm, hapa, hpane, hea1, hea1s, hea2,
                    readH_set_elements, readH_mk, heap_eq_readH,
                    readH_writeH, objAssign, hb]
              · have hea2s : ¬ a = ea := fun h => hea2 h.symm
                cases hb : (readH w ea).bare
                · right
                  refine ⟨ea, rfl, ?_⟩
                  simp only [appendElement, ht, if_true, jsStr,
                    elements_writeH, hp]
                  simp [hm, hapa, hpane, hea1, hea1s, hea2, hea2s,
                    readH_set_elements, readH_mk, heap_eq_readH,
                    readH_writeH, objAssign, hb]
                · left
                  simp only [appendElement, ht, if_true, jsStr,
                    elements_writeH, hp]
                  simp [hm, hapa, hpane, hea1, hea1s, hea2, hea2s,
                    readH_set_elements, readH_mk, heap_eq_readH,
                    readH_writeH, objAssign, hb]
    · have htf : jsTruthyS p = false := by
        revert ht; cases jsTruthyS p <;> simp
      by_cases hea2 : ea = a
      · cases hb : (readH w a).bare
        · right
          refine ⟨ea, rfl, ?_⟩
          simp only [appendElement, htf, Bool.false_eq_true, if_false]
          simp [hm, hea2, readH_set_elements, readH_mk, heap_eq_readH,
            readH_writeH, objAssign, hb]
        · right
          refine ⟨ea, rfl, ?_⟩
          simp only [appendElement, htf, Bool.false_eq_true, if_false]
          simp [hm, hea2, readH_set_elements, readH_mk, heap_eq_readH,
            readH_writeH, objAssign, hb]
      · have hea2s : ¬ a = ea := fun h => hea2 h.symm
        cases hb : (readH w ea).bare
        · right
          refine ⟨ea, rfl, ?_⟩
          simp only [appendElement, htf, Bool.false_eq_true, if_false]
          simp [hm, hea2, hea2s, readH_set_elements, readH_mk,
            heap_eq_readH, readH_writeH, objAssign, hb]
        · left
          simp only [appendElement, htf, Bool.false_eq_true, if_false]
          simp [hm, hea2, hea2s, readH_set_elements, readH_mk,
            heap_eq_readH, readH_writeH, objAssign, hb]

/-- Transport of the invariant along a world with identical registry, heap
and allocation bound (selection-only operations). -/
theorem inv_of_same (w w2 : World) (he : w2.elements = w.elements)
    (hh : ∀ b, readH w2 b = readH w b) (hn : w2.nextAddr = w.nextAddr)
    (hInv : Inv w) : Inv w2 := by
  obtain ⟨a0, h1, h2, h3, h4, hAll⟩ := hInv
  refine ⟨a0, by rw [he]; exact h1, by rw [hn]; exact h2,
    by rw [hh]; exact h3, by rw [hh]; exact h4, ?_⟩
  intro x ad h
  rw [he] at h
  obtain ⟨hlt, himp⟩ := hAll x ad h
  exact ⟨by rw [hn]; exact hlt, fun hr => himp (by rw [← hh]; exact hr)⟩

theorem inv_createElement (w : World) (id : String) (hInv : Inv w) :
    Inv (createElementOp w id) := by
  obtain ⟨a0, h1, h2, h3, h4, hAll⟩ := hInv
  have hne : a0 ≠ w.nextAddr := Nat.ne_of_lt h2
  refine ⟨a0, h1, Nat.lt_succ_of_lt h2, ?_, ?_, ?_⟩
  · rw [show readH (createElementOp w id) a0 = readH w a0 from by
      simp [createElementOp, readH_alloc, hne]]
    exact h3
  · rw [show readH (createElementOp w id) a0 = readH w a0 from by
      simp [createElementOp, readH_alloc, hne]]
    exact h4
  · intro x ad h
    obtain ⟨hlt, himp⟩ := hAll x ad h
    refine ⟨Nat.lt_succ_of_lt hlt, ?_⟩
    rw [show readH (createElementOp w id) ad = readH w ad from by
      simp [createElementOp, readH_alloc, Nat.ne_of_lt hlt]]
    exact himp

/-- A heap write that preserves the object's `id` and `parentId` preserves
the invariant. -/
theorem inv_writeH_keep (w : World) (a : Nat) (e : Elem)
    (hide : e.id = (readH w a).id)
    (hpar : e.parentId = (readH w a).parentId) (hInv : Inv w) :
    Inv (writeH w a e) := by
  obtain ⟨a0, h1, h2, h3, h4, hAll⟩ := hInv
  refine ⟨a0, h1, h2, ?_, ?_, ?_⟩
  · by_cases h : a0 = a
    · rw [readH_writeH, if_pos h, hide, ← h]
      exact h3
    · rw [readH_writeH, if_neg h]
      exact h3
  · by_cases h : a0 = a
    · rw [readH_writeH, if_pos h, hpar, ← h]
      exact h4
    · rw [readH_writeH, if_neg h]
      exact h4
  · intro x ad hads
    obtain ⟨hlt, himp⟩ := hAll x ad hads
    refine ⟨hlt, ?_⟩
    by_cases h : ad = a
    · rw [readH_writeH, if_pos h, hide, ← h]
      exact himp
    · rw [readH_writeH, if_neg h]
      exact himp

theorem inv_removeElement (w : World) (a : Nat) (p : Option String)
    (hInv : Inv w) (hid : (readH w a).id ≠ "root") :
    Inv (removeElement w a p) := by
  obtain ⟨a0, h1, h2, h3, h4, hAll⟩ := hInv
  obtain ⟨hel, hna, hfr, hida⟩ := removeElement_char w a p
  have haa0 : a ≠ a0 := fun h => hid (by rw [h]; exact h3)
  have ha0a : a0 ≠ a := fun h => haa0 h.symm
  refine ⟨a0, ?_, ?_, ?_, ?_, ?_⟩
  · rw [hel, lookupA_eraseA,
      if_neg (fun h : ("root" : String) = (readH w a).id => hid h.symm)]
    exact h1
  · rw [hna]; exact h2
  · rw [(hfr a0 ha0a).1]; exact h3
  · rw [(hfr a0 ha0a).2]; exact h4
  · intro x ad h
    rw [hel, lookupA_eraseA] at h
    by_cases hx : x = (readH w a).id
    · rw [if_pos hx] at h
      exact Option.noConfusion h
    · rw [if_neg hx] at h
      obtain ⟨hlt, himp⟩ := hAll x ad h
      refine ⟨by rw [hna]; exact hlt, ?_⟩
      intro hroot
      by_cases hada : ad = a
      · exfalso
        apply hid
        rw [← hida]
        rw [hada] at hroot
        exact hroot
      · rw [(hfr ad hada).1] at hroot
        exact himp hroot

theorem inv_appendElement (w : World) (a : Nat) (p : Option String)
    (hInv : Inv w) (ha : a < w.nextAddr) (hid : (readH w a).id ≠ "root") :
    Inv (appendElement w a p) := by
  obtain ⟨a0, h1, h2, h3, h4, hAll⟩ := hInv
  have haa0 : a ≠ a0 := fun h => hid (by rw [h]; exact h3)
  have ha0a : a0 ≠ a := fun h => haa0 h.symm
  have hanext : a ≠ w.nextAddr := Nat.ne_of_lt ha
  have hjroot : (readH (appendElement w a p) a).id ≠ "root" := by
    rcases appendElement_id_dichotomy w a p hanext with hj | ⟨ea, hea, hj⟩
    · rw [hj]; exact hid
    · rw [hj]
      intro hroot
      obtain ⟨-, himp⟩ := hAll _ ea hea
      exact hid (himp hroot).2
  by_cases ht : jsTruthyS p
  · rcases p with _ | s
    · simp [jsTruthyS] at ht
    · have hps : s ≠ "" := by simpa [jsTruthyS] using ht
      rcases hp : lookupA w.elements s with _ | pa
      · -- no entry for the parent id: a fresh bare object is allocated
        have hel := appendElement_alloc_elements w a s hps hp
        have hna := appendElement_alloc_nextAddr w a s hps hp
        have hfr := appendElement_alloc_frame w a s hps hp
        have hfresh := appendElement_alloc_fresh_id w a s hps hp hanext
        have hsne : s ≠ "root" := fun h => by
          rw [h, h1] at hp
          exact Option.noConfusion hp
        have ha0f : a0 ≠ w.nextAddr := Nat.ne_of_lt h2
        refine ⟨a0, ?_, ?_, ?_, ?_, ?_⟩
        · rw [hel, lookupA_insertA,
            if_neg (fun h : ("root" : String) = s => hsne h.symm),
            lookupA_insertA, if_neg (fun h => hjroot h.symm)]
          exact h1
        · rw [hna]; exact Nat.lt_succ_of_lt h2
        · rw [hfr a0 ha0a ha0f]; exact h3
        · rw [hfr a0 ha0a ha0f]; exact h4
        · intro x ad h
          rw [hel, lookupA_insertA] at h
          by_cases hxs : x = s
          · rw [if_pos hxs] at h
            have had : ad = w.nextAddr := (Option.some.inj h).symm
            subst had
            refine ⟨by rw [hna]; exact Nat.lt_succ_self _, ?_⟩
            intro hroot
            rw [hfresh] at hroot
            exact absurd hroot (by decide)
          · rw [if_neg hxs, lookupA_insertA] at h
            by_cases hxj : x = (readH (appendElement w a (some s)) a).id
            · rw [if_pos hxj] at h
              have had : ad = a := (Option.some.inj h).symm
              subst had
              refine ⟨by rw [hna]; exact Nat.lt_succ_of_lt ha, ?_⟩
              intro hroot
              exact absurd hroot hjroot
            · rw [if_neg hxj] at h
              obtain ⟨hlt, himp⟩ := hAll x ad h
              refine ⟨by rw [hna]; exact Nat.lt_succ_of_lt hlt, ?_⟩
              intro hroot
              by_cases hada : ad = a
              · rw [hada] at hroot
                exact absurd hroot hjroot
              · have hadf : ad ≠ w.nextAddr := Nat.ne_of_lt hlt
                rw [hfr ad hada hadf] at hroot
                exact himp hroot
      · -- parent entry found: mutated in place, rebound
        have hel := appendElement_found_elements w a pa s hps hp
        have hna := appendElement_found_nextAddr w a pa s hps hp
        have hfr := appendElement_found_frame w a pa s hps hp
        obtain ⟨hplt, hpimp⟩ := hAll s pa hp
        by_cases hsr : s = "root"
        · have hpa0 : pa = a0 := by
            rw [hsr, h1] at hp
            exact (Option.some.inj hp).symm
          have hpaa : pa ≠ a := by rw [hpa0]; exact ha0a
          have hat := appendElement_found_at_parent w a pa s hps hp hpaa
          refine ⟨a0, ?_, ?_, ?_, ?_, ?_⟩
          · rw [hel, lookupA_insertA, if_pos (by rw [hsr]), hpa0]
          · rw [hna]; exact h2
          · have hi := hat.1
            rw [hpa0] at hi
            rw [hi]
            exact h3
          · have hi := hat.2
            rw [hpa0] at hi
            rw [hi]
            exact h4
          · intro x ad h
            rw [hel, lookupA_insertA] at h
            by_cases hxs : x = s
            · rw [if_pos hxs] at h
              have had : ad = pa := (Option.some.inj h).symm
              refine ⟨by rw [hna, had, hpa0]; exact h2, ?_⟩
              intro hroot
              exact ⟨had.trans hpa0, by rw [hxs, hsr]⟩
            · rw [if_neg hxs, lookupA_insertA] at h
              by_cases hxj : x = (readH (appendElement w a (some s)) a).id
              · rw [if_pos hxj] at h
                have had : ad = a := (Option.some.inj h).symm
                subst had
                refine ⟨by rw [hna]; exact ha, ?_⟩
                intro hroot
                exact absurd hroot hjroot
              · rw [if_neg hxj] at h
                obtain ⟨hlt, himp⟩ := hAll x ad h
                refine ⟨by rw [hna]; exact hlt, ?_⟩
                intro hroot
                by_cases hada : ad = a
                · rw [hada] at hroot
                  exact absurd hroot hjroot
                · by_cases hadpa : ad = pa
                  · have hpaa2 : pa ≠ a := by rw [← hadpa]; exact hada
                    have hat2 := appendElement_found_at_parent w a pa s hps
                      hp hpaa2
                    rw [hadpa, hat2.1] at hroot
                    exact himp (by rw [hadpa]; exact hroot)
                  · rw [hfr ad hada hadpa] at hroot
                    exact himp hroot
        · have ha0pa : a0 ≠ pa := by
            intro hh
            exact hsr ((hpimp (by rw [← hh]; exact h3)).2)
          refine ⟨a0, ?_, ?_, ?_, ?_, ?_⟩
          · rw [hel, lookupA_insertA,
              if_neg (fun h : ("root" : String) = s => hsr h.symm),
              lookupA_insertA, if_neg (fun h => hjroot h.symm)]
            exact h1
          · rw [hna]; exact h2
          · rw [hfr a0 ha0a ha0pa]; exact h3
          · rw [hfr a0 ha0a ha0pa]; exact h4
          · intro x ad h
            rw [hel, lookupA_insertA] at h
            by_cases hxs : x = s
            · rw [if_pos hxs] at h
              have had : ad = pa := (Option.some.inj h).symm
              refine ⟨by rw [hna, had]; exact hplt, ?_⟩
              intro hroot
              rw [had] at hroot
              by_cases hpaa2 : pa = a
              · rw [hpaa2] at hroot
                exact absurd hroot hjroot
              · have hat2 := appendElement_found_at_parent w a pa s hps hp
                  hpaa2
                rw [hat2.1] at hroot
                have hc := hpimp hroot
                exact ⟨had.trans hc.1, by rw [hxs]; exact hc.2⟩
            · rw [if_neg hxs, lookupA_insertA] at h
              by_cases hxj : x = (readH (appendElement w a (some s)) a).id
              · rw [if_pos hxj] at h
                have had : ad = a := (Option.some.inj h).symm
                subst had
                refine ⟨by rw [hna]; exact ha, ?_⟩
                intro hroot
                exact absurd hroot hjroot
              · rw [if_neg hxj] at h
                obtain ⟨hlt, himp⟩ := hAll x ad h
                refine ⟨by rw [hna]; exact hlt, ?_⟩
                intro hroot
                by_cases hada : ad = a
                · rw [hada] at hroot
                  exact absurd hroot hjroot
                · by_cases hadpa : ad = pa
                  · have hpaa2 : pa ≠ a := by rw [← hadpa]; exact hada
                    have hat2 := appendElement_found_at_parent w a pa s hps
                      hp hpaa2
                    rw [hadpa, hat2.1] at hroot
                    exact himp (by rw [hadpa]; exact hroot)
                  · rw [hfr ad hada hadpa] at hroot
                    exact himp hroot
  · have htf : jsTruthyS p = false := by
      revert ht; cases jsTruthyS p <;> simp
    have hel := appendElement_falsy_elements w a p htf
    have hna := appendElement_falsy_nextAddr w a p htf
    have hfr := appendElement_falsy_frame w a p htf
    refine ⟨a0, ?_, ?_, ?_, ?_, ?_⟩
    · rw [hel, lookupA_insertA,
        if_neg (fun h : ("root" : String) = (readH w a).id => hid h.symm)]
      exact h1
    · rw [hna]; exact h2
    · rw [hfr a0 ha0a]; exact h3
    · rw [hfr a0 ha0a]; exact h4
    · intro x ad h
      rw [hel, lookupA_insertA] at h
      by_cases hx : x = (readH w a).id
      · rw [if_pos hx] at h
        have had : ad = a := (Option.some.inj h).symm
        subst had
        refine ⟨by rw [hna]; exact ha, ?_⟩
        intro hroot
        exact absurd hroot hjroot
      · rw [if_neg hx] at h
        obtain ⟨hlt, himp⟩ := hAll x ad h
        refine ⟨by rw [hna]; exact hlt, ?_⟩
        intro hroot
        by_cases hada : ad = a
        · rw [hada] at hroot
          exact absurd hroot hjroot
        · rw [hfr ad hada] at hroot
          exact himp hroot

theorem inv_step (w : World) (op : EOp) (hInv : Inv w)
    (hok : okOp w op = true) : Inv (stepOp w op) := by
  cases op with
  | create id => exact inv_createElement w id hInv
  | append a p =>
    have h2 : a < w.nextAddr ∧ (readH w a).id ≠ "root" := by
      simpa [okOp, Bool.and_eq_true] using hok
    exact inv_appendElement w a p hInv h2.1 h2.2
  | remove a p =>
    have h2 : (readH w a).id ≠ "root" := by simpa [okOp] using hok
    exact inv_removeElement w a p hInv h2
  | del a =>
    have h2 : (readH w a).id ≠ "root" := by simpa [okOp] using hok
    have hInv1 : Inv (writeH w a { readH w a with deleted := true }) :=
      inv_writeH_keep w a _ rfl rfl hInv
    have hid1 :
        (readH (writeH w a { readH w a with deleted := true }) a).id
          ≠ "root" := by
      rw [readH_writeH, if_pos rfl]
      exact h2
    have hdel : Inv (elemDelete w a) :=
      inv_removeElement _ a _ hInv1 hid1
    exact inv_of_same (elemDelete w a) _ rfl (fun b => rfl) rfl hdel
  | sel a => exact inv_of_same w _ rfl (fun b => rfl) rfl hInv
  | selId id =>
    by_cases hi : id = ""
    · simpa [stepOp, selectIdOp, hi] using hInv
    · exact inv_of_same w _ (by simp [stepOp, selectIdOp, hi])
        (fun b => by simp [stepOp, selectIdOp, hi, readH_mk, heap_eq_readH])
        (by simp [stepOp, selectIdOp, hi]) hInv
  | selKey k =>
    cases htk : jsTruthyS k
    · simpa [stepOp, selectKeyOp, htk] using hInv
    · exact inv_of_same w _ (by simp [stepOp, selectKeyOp, htk])
        (fun b => by simp [stepOp, selectKeyOp, htk, readH_mk,
          heap_eq_readH])
        (by simp [stepOp, selectKeyOp, htk]) hInv
  | clearSel => exact inv_of_same w _ rfl (fun b => rfl) rfl hInv

theorem inv_runOps (w : World) (ops : List EOp) (hInv : Inv w)
    (hok : okRun w ops = true) : Inv (runOps w ops) := by
  induction ops generalizing w with
  | nil => simpa [runOps] using hInv
  | cons op ops ih =>
    rw [show runOps w (op :: ops) = runOps (stepOp w op) ops from rfl]
    have h2 : okOp w op = true ∧ okRun (stepOp w op) ops = true := by
      simpa [okRun, Bool.and_eq_true] using hok
    exact ih (stepOp w op) (inv_step w op hInv h2.1) h2.2

theorem inv_initial : Inv initialWorld := by
  refine ⟨0, by decide, by decide, by decide, by decide, ?_⟩
  intro x ad h
  by_cases hx : ("root" : String) = x
  · have h0 : lookupA initialWorld.elements x = some 0 := by
      rw [← hx]; decide
    rw [h0] at h
    have : ad = 0 := (Option.some.inj h).symm
    subst this
    exact ⟨by decide, fun _ => ⟨rfl, hx.symm⟩⟩
  · exfalso
    have h0 : lookupA initialWorld.elements x = none := by
      simp [initialWorld, lookupA, hx]
    rw [h0] at h
    exact Option.noConfusion h

/-- C5 counterexample: `removeElement` invoked on the root element itself
(with any truthy parent id, here `"x"`) deletes the `root` entry from the
registry, so the root invariant is not preserved by every editor operation
from every reachable state — the very first state already admits a breaking
call. -/
theorem removeElement_can_delete_root :
    lookupA ((stepOp initialWorld (EOp.remove 0 (some "x"))).elements)
      "root" = none := by
  decide

/-- C5 amended: starting from the initial store, the `elements` record keeps
an entry under `"root"` whose `parentId` is `null` across every sequence of
editor operations (create, append, remove, delete, select, selectId,
selectKey, clearSelection) in which `appendElement`, `removeElement` and
`deleteElement` are never invoked on an element whose id is `"root"` (and
appended elements are previously allocated objects). -/
theorem root_entry_invariant_guarded (ops : List EOp)
    (hok : okRun initialWorld ops = true) :
    RootOk (runOps initialWorld ops) := by
  obtain ⟨a0, h1, -, -, h4, -⟩ := inv_runOps initialWorld ops inv_initial hok
  exact ⟨a0, h1, h4⟩

theorem root_entry_invariant_guarded_witness :
    RootOk (runOps initialWorld
      [EOp.create "a", EOp.append 1 (some "root"), EOp.sel 1,
       EOp.create "b", EOp.append 2 (some "a"), EOp.del 2,
       EOp.remove 1 (some "root"), EOp.clearSel]) :=
  root_entry_invariant_guarded _ (by decide)

end ReactThreeEditor
